import Mathlib

/-!
Verification of the waypoint-selection strategies and the deception-scoring
engine of `landmarkextraction.py` (goal-deceptive path planning).

The Python module is shallowly embedded:
* an atomic ground predicate is a `String`; a landmark (Python `frozenset` of
  atom strings) is a `Finset String`;
* the planner oracle `get_landmarks` (out of scope of the spec) is a parameter
  `oracle : Finset String → Finset String` mapping the goal written into the
  task's `goals` field to the set of raw landmark strings returned;
* the optimal-plan-length oracle (`LmCutHeuristic` + `astar_search`) is a
  parameter `planLen : Finset String → W → Nat` over an opaque world type `W`;
* Python's mutable `mem_dict` is an explicit association list threaded through
  the recursion; Python's unbounded recursion is modelled with explicit fuel
  (`none` models a `RecursionError`);
* the mutation of `initialTask.goals` before each `get_landmarks` call is
  modelled by returning the trace of goals written, in call order: the field's
  final value is the last element of the trace;
* the statement `landmarkIntersection[realGoalIndex] = {}` stores an empty
  **dict** (not an empty set) in a list of sets; `PyVal` models this
  heterogeneous list, with Python equality (a dict is never equal to a set).
-/

namespace LandmarkDeception

/-- A landmark: Python `frozenset` of atomic ground predicate strings. -/
abbrev Landmark : Type := Finset String

/-- Characters matched by the character class of the regex
`\([A-Za-z0-9 ]*\)` used by `parse_goal`. -/
def isAtomChar (c : Char) : Bool := c.isAlphanum || c = ' '

/-- Model of `re.findall('\([A-Za-z0-9 ]*\)', goal)`: leftmost,
non-overlapping matches of a parenthesised run of alphanumerics and spaces. -/
def findAtoms : List Char → List String
  | [] => []
  | c :: rest =>
    if c = '(' then
      match h : rest.dropWhile isAtomChar with
      | ')' :: tail =>
          ("(" ++ String.mk (rest.takeWhile isAtomChar) ++ ")") :: findAtoms tail
      | _ => findAtoms rest
    else findAtoms rest
termination_by l => l.length
decreasing_by
  · have h1 : (rest.dropWhile isAtomChar).length ≤ rest.length :=
      (List.dropWhile_sublist isAtomChar).length_le
    rw [h] at h1
    simp at h1 ⊢
    omega
  · simp
  · simp

/-- `ExtractLandmarks.parse_goal`: collect the regex matches into a set. -/
def parse_goal (goal : String) : Landmark := (findAtoms goal.toList).toFinset

/-- The fields of an `ExtractLandmarks` instance the strategies read:
the goal-formula strings, the real goal's index, the per-hypothesis landmark
sets, and the per-hypothesis optimal plan lengths. -/
structure ExtractLandmarks where
  goals : List String
  realGoalIndex : Nat
  landmarks : List (Finset Landmark)
  optimal_plans : List Nat
deriving DecidableEq

namespace ExtractLandmarks

/-- `getGoal(index, parse=True)`. -/
def getGoal (l : ExtractLandmarks) (index : Nat) : Landmark :=
  parse_goal (l.goals.getD index "")

/-- `getRealGoal(parse=True)`. -/
def getRealGoal (l : ExtractLandmarks) : Landmark := l.getGoal l.realGoalIndex

/-- `getLandmark(index)`. -/
def getLandmark (l : ExtractLandmarks) (index : Nat) : Finset Landmark :=
  l.landmarks.getD index ∅

/-- `getRealLandmark()`. -/
def getRealLandmark (l : ExtractLandmarks) : Finset Landmark :=
  l.getLandmark l.realGoalIndex

end ExtractLandmarks

/-!
Python iterates sets (and `sorted` consumes iterables) in an
implementation-defined order. The embedding takes that order as explicit
parameters: `iterL : Finset Landmark → List Landmark` enumerates a set of
landmarks and `iterS : Finset String → List String` enumerates a set of raw
landmark strings, standing for the iteration order Python happens to use.
No claim depends on the particular order.
-/

/-- An element of the Python list `landmarkIntersection`: ordinarily a set of
landmarks, but the entry at the real goal's index is overwritten with the
literal `{}`, which in Python is an empty dict. -/
inductive PyVal where
  | set (s : Finset Landmark)
  | emptyDict
deriving DecidableEq

namespace PyVal

/-- Python `len` on an element of `landmarkIntersection`. -/
def len : PyVal → Nat
  | set s => s.card
  | emptyDict => 0

/-- Iterating a `PyVal` (e.g. by `sorted`): a dict yields its keys, so the
empty dict yields nothing. -/
def elems (iterL : Finset Landmark → List Landmark) : PyVal → List Landmark
  | set s => iterL s
  | emptyDict => []

end PyVal

/-- Python `max(xs, key=len)`: the first element of maximal `len`
(later elements replace the current best only on a strictly greater key). -/
def pyMax (xs : List PyVal) : PyVal :=
  match xs with
  | [] => PyVal.emptyDict
  | x :: rest => rest.foldl (fun b a => if a.len > b.len then a else b) x

/-- Python `xs.index(v)`: position of the first element equal to `v`
(Python `==`: a dict is never equal to a set; `len xs` models the
`ValueError` case, unreachable when `v ∈ xs`). -/
def pyIndex (xs : List PyVal) (v : PyVal) : Nat :=
  match xs with
  | [] => 0
  | a :: rest => if a = v then 0 else pyIndex rest v + 1

/-- The list `landmarkIntersection` built by the three non-baseline
strategies: intersection of each hypothesis's landmark set with the real
goal's, with the real index's entry overwritten by the empty dict `{}`. -/
def landmarkIntersection (l : ExtractLandmarks) : List PyVal :=
  (l.landmarks.map (fun i => PyVal.set (i ∩ l.getRealLandmark))).set
    l.realGoalIndex PyVal.emptyDict

namespace BaselineApproach

/-- `BaselineApproach.generate`. -/
def generate (l : ExtractLandmarks) : List Landmark := [l.getRealGoal]

end BaselineApproach

namespace GoalToRealGoalApproach

/-- The index `landmarkSetIndex` selected by
`GoalToRealGoalApproach.generate`:
`landmarkIntersection.index(max(landmarkIntersection, key=len))`. -/
def landmarkSetIndex (l : ExtractLandmarks) : Nat :=
  pyIndex (landmarkIntersection l) (pyMax (landmarkIntersection l))

/-- `GoalToRealGoalApproach.generate`. -/
def generate (l : ExtractLandmarks) : List Landmark :=
  [l.getGoal (landmarkSetIndex l), l.getRealGoal]

end GoalToRealGoalApproach

namespace OldScoringApproach

/-- `OldScoringApproach.generate.ordering_score`: write the landmark into
`initialTask.goals`, call `get_landmarks`, return the count. -/
def ordering_score (oracle : Finset String → Finset String) (landmark : Landmark) :
    Nat :=
  (oracle landmark).card

/-- `OldScoringApproach.generate`. Besides the waypoint list it returns the
trace of goals written into the shared `initialTask.goals` field, in the
order `get_landmarks` was invoked (the field is never restored). -/
def generate (oracle : Finset String → Finset String)
    (iterL : Finset Landmark → List Landmark) (l : ExtractLandmarks) :
    List Landmark × List Landmark :=
  let landmarkSet := pyMax (landmarkIntersection l)
  let elems := landmarkSet.elems iterL
  let pairs := elems.map (fun lm => (lm, ordering_score oracle lm))
  ((pairs.mergeSort (fun a b => a.2 ≤ b.2)).map (·.1) ++ [l.getRealGoal], elems)

end OldScoringApproach

namespace NewScoringApproach

/-- The memoization dictionary `mem_dict`, as an association list; an
assignment prepends (so a later binding shadows an earlier one, like a dict
update). -/
abbrev Memo : Type := List (Landmark × Nat)

/-- Lookup in `mem_dict` (`mem_dict.get(landmark)`). -/
def mlookup : Memo → Landmark → Option Nat
  | [], _ => none
  | (k, v) :: rest, x => if x = k then some v else mlookup rest x

/-- The test `score = mem_dict.get(landmark); if not score:`: a stored score
is used only when present and non-zero (`0` is falsy in Python; stored
scores are always `sum + 1 ≥ 1`, so the extra test never fires). -/
def memoHit (m : Memo) (landmark : Landmark) : Option Nat :=
  (mlookup m landmark).bind (fun s => if s = 0 then none else some s)

mutual

/-- `NewScoringApproach.generate.ordering_score`, with explicit fuel for the
unguarded recursion (`none` models Python's `RecursionError`). On a memo
miss (`if not score:`, i.e. the stored value is absent or `0`) it writes the
landmark into `initialTask.goals`, calls `get_landmarks`, removes the
landmark's own atoms (`landmarks - landmark`), recursively scores each
remaining raw string's parse, stores `sum + 1`, and returns it. The result
carries the updated memo and the trace of goals written before each
`get_landmarks` call. -/
def ordering_score (oracle : Finset String → Finset String)
    (iterS : Finset String → List String) :
    Nat → Memo → Landmark → Option (Nat × Memo × List Landmark)
  | 0, _, _ => none
  | fuel + 1, m, landmark =>
    match memoHit m landmark with
    | some s => some (s, m, [])
    | none =>
      let subs := iterS ((oracle landmark) \ landmark)
      (ordering_score_list oracle iterS fuel m (subs.map parse_goal)).map
        (fun r => (r.1 + 1, (landmark, r.1 + 1) :: r.2.1, landmark :: r.2.2))
termination_by fuel => (fuel, 0)

/-- Scoring of a list of sub-landmarks: thread the memo left to right and sum
the scores (the Python `sum` over the comprehension). -/
def ordering_score_list (oracle : Finset String → Finset String)
    (iterS : Finset String → List String) :
    Nat → Memo → List Landmark → Option (Nat × Memo × List Landmark)
  | _, m, [] => some (0, m, [])
  | fuel, m, lm :: rest =>
    (ordering_score oracle iterS fuel m lm).bind
      (fun r =>
        (ordering_score_list oracle iterS fuel r.2.1 rest).map
          (fun r2 => (r.1 + r2.1, r2.2.1, r.2.2 ++ r2.2.2)))
termination_by fuel m ls => (fuel, ls.length + 1)

end

/-- The union sorted by `NewScoringApproach.generate`: the landmark set of
the hypothesis with the largest intersection, united with the real goal's
landmark set. -/
def combinedLandmarks (l : ExtractLandmarks) : Finset Landmark :=
  l.getLandmark (GoalToRealGoalApproach.landmarkSetIndex l) ∪ l.getRealLandmark

/-- Key computation of Python's `sorted(combinedLandmarks, key=ordering_score)`:
the key function runs once per element, in iteration order, threading
`mem_dict`. -/
def computeKeys (oracle : Finset String → Finset String)
    (iterS : Finset String → List String) (fuel : Nat) :
    List Landmark → Memo → Option (List (Landmark × Nat) × Memo × List Landmark)
  | [], m => some ([], m, [])
  | lm :: rest, m =>
    (ordering_score oracle iterS fuel m lm).bind
      (fun r =>
        (computeKeys oracle iterS fuel rest r.2.1).map
          (fun r2 => ((lm, r.1) :: r2.1, r2.2.1, r.2.2 ++ r2.2.2)))

/-- `NewScoringApproach.generate`. Returns the waypoint list together with
the final `mem_dict` and the trace of goals written into
`initialTask.goals`. -/
def generate (oracle : Finset String → Finset String)
    (iterS : Finset String → List String)
    (iterL : Finset Landmark → List Landmark) (l : ExtractLandmarks)
    (fuel : Nat) : Option (List Landmark × Memo × List Landmark) :=
  (computeKeys oracle iterS fuel (iterL (combinedLandmarks l)) []).map
    (fun r =>
      ((r.1.mergeSort (fun a b => a.2 ≤ b.2)).map (·.1) ++ [l.getRealGoal],
        r.2.1, r.2.2))

end NewScoringApproach

mutual

/-- The recursive coverage score as a pure function of the oracle (the
mathematical recursion the memoized `ordering_score` implements):
score of a landmark is one plus the sum of the scores of the parses of the
raw sub-landmark strings `get_landmarks(L) \ L`. Fuel bounds the recursion
depth. -/
def coverage_score (oracle : Finset String → Finset String)
    (iterS : Finset String → List String) :
    Nat → Landmark → Option Nat
  | 0, _ => none
  | fuel + 1, landmark =>
    (coverage_score_list oracle iterS fuel
      ((iterS ((oracle landmark) \ landmark)).map parse_goal)).map (· + 1)
termination_by fuel => (fuel, 0)

def coverage_score_list (oracle : Finset String → Finset String)
    (iterS : Finset String → List String) :
    Nat → List Landmark → Option Nat
  | _, [] => some 0
  | fuel, lm :: rest =>
    (coverage_score oracle iterS fuel lm).bind
      (fun v => (coverage_score_list oracle iterS fuel rest).map (v + ·))
termination_by fuel ls => (fuel, ls.length + 1)

end

/-- The mutable planner task: the `goals` field the code overwrites, plus an
opaque remainder (initial state, operators, ...) over which the plan-length
oracle is parametric. -/
structure Task (W : Type) where
  goals : Landmark
  world : W
deriving DecidableEq

namespace ApproachTester

/-- `ApproachTester.optc`: save the task's goal, overwrite it with the queried
hypothesis's parsed goal, run optimal search (`planLen` models
`len(astar_search(task, LmCutHeuristic(task)))`), restore the goal, return
the plan length. The returned task is the task object after the call. -/
def optc {W : Type} (planLen : Landmark → W → Nat) (l : ExtractLandmarks)
    (goal : Nat) (state_task : Task W) : Nat × Task W :=
  let original_goal := state_task.goals
  let t1 : Task W := { state_task with goals := l.getGoal goal }
  let n := planLen t1.goals t1.world
  (n, { t1 with goals := original_goal })

/-- `costDiff(goal, state)` from the spec: optimal length from the state to
the goal minus the goal's precomputed optimal plan length. -/
def costDiff {W : Type} (planLen : Landmark → W → Nat) (l : ExtractLandmarks)
    (goal : Nat) (w : W) : Int :=
  (planLen (l.getGoal goal) w : Int) - (l.optimal_plans.getD goal 0 : Int)

/-- One iteration of the `for i in range(len(self.l.goals))` loop of
`deceptive_stats`: skip the real index, otherwise query `optc` for competitor
`i` and raise the flag when the real goal's cost difference is strictly below
the competitor's. -/
def truthfulStep {W : Type} (planLen : Landmark → W → Nat)
    (l : ExtractLandmarks) (true_cost_diff : Int) (acc : Bool × Task W)
    (i : Nat) : Bool × Task W :=
  if i = l.realGoalIndex then acc
  else
    let ri := optc planLen l i acc.2
    (acc.1 ||
      decide (true_cost_diff < (ri.1 : Int) - (l.optimal_plans.getD i 0 : Int)),
      ri.2)

/-- `ApproachTester.deceptive_stats`: the truthfulness flag and the plan
completion for the current state, together with the task object after the
call. -/
def deceptive_stats {W : Type} (planLen : Landmark → W → Nat)
    (l : ExtractLandmarks) (state_task : Task W) : (Bool × Int) × Task W :=
  let r0 := optc planLen l l.realGoalIndex state_task
  let opt_state_to_goal := r0.1
  let true_cost_diff : Int :=
    (opt_state_to_goal : Int) - (l.optimal_plans.getD l.realGoalIndex 0 : Int)
  let r1 := (List.range l.goals.length).foldl
    (truthfulStep planLen l true_cost_diff) (false, r0.2)
  ((r1.1,
    (l.optimal_plans.getD l.realGoalIndex 0 : Int) - (opt_state_to_goal : Int)),
    r1.2)

/-- The body of the `for state in deception_array` loop of
`ApproachTester.calc_deceptive_stats`: count a truthful record, or overwrite
the extent with a non-truthful record's plan completion. -/
def calcStep (acc : Nat × Int) (state : Bool × Int) : Nat × Int :=
  if state.1 then (acc.1 + 1, acc.2) else (acc.1, state.2)

/-- The accumulator loop of `ApproachTester.calc_deceptive_stats`, starting
from `truths = 0`, `LDP_path_comp = 0`. -/
def calc_fold (deception_array : List (Bool × Int)) : Nat × Int :=
  deception_array.foldl calcStep (0, 0)

/-- `ApproachTester.calc_deceptive_stats`: `(1/truths, LDP_path_comp)`.
`1/truths` is Python float division, modelled exactly in `ℚ`; when no record
is truthful the division raises `ZeroDivisionError`, modelled as an error
value. -/
def calc_deceptive_stats (deception_array : List (Bool × Int)) :
    Except String (ℚ × Int) :=
  let r := calc_fold deception_array
  if r.1 = 0 then Except.error "ZeroDivisionError: division by zero"
  else Except.ok (1 / (r.1 : ℚ), r.2)

end ApproachTester

/-- `NewScoringApproach.generate` observed together with the shared
`initialTask.goals` field: given the field's value before the call, return
the waypoint list and the field's value after the call (the goal of the last
`get_landmarks` query, or the old value if no query ran). -/
def NewScoringApproach.run (oracle : Finset String → Finset String)
    (iterS : Finset String → List String)
    (iterL : Finset Landmark → List Landmark)
    (l : ExtractLandmarks) (fuel : Nat) (goals0 : Landmark) :
    Option (List Landmark × Landmark) :=
  (NewScoringApproach.generate oracle iterS iterL l fuel).map
    (fun r => (r.1, r.2.2.getLast?.getD goals0))

/-- `OldScoringApproach.generate` observed together with the shared
`initialTask.goals` field, as in `NewScoringApproach.run`. -/
def OldScoringApproach.run (oracle : Finset String → Finset String)
    (iterL : Finset Landmark → List Landmark)
    (l : ExtractLandmarks) (goals0 : Landmark) :
    List Landmark × Landmark :=
  let r := OldScoringApproach.generate oracle iterL l
  (r.1, r.2.getLast?.getD goals0)

/-- A memo is sound when every value it returns is the landmark's recursive
coverage score (at some sufficient recursion depth). -/
def SoundMemo (oracle : Finset String → Finset String)
    (iterS : Finset String → List String)
    (m : NewScoringApproach.Memo) : Prop :=
  ∀ L v, NewScoringApproach.mlookup m L = some v →
    ∃ g, coverage_score oracle iterS g L = some v

/-!
Concrete instances used by the counterexamples and witnesses. The oracle
realises the coverage graph `lmB → lmC`, `lmA`, `lmC` terminal: scoring
`lmA` yields 1, scoring `lmB` yields 2.
-/

def lmA : Landmark := {"(a)"}

def lmB : Landmark := {"(b)"}

def lmC : Landmark := {"(c)"}

def exOracle : Finset String → Finset String := fun L =>
  if L = lmA then {"(a)"}
  else if L = lmB then {"(b)", "(c)"}
  else if L = lmC then {"(c)"}
  else ∅

/-- A concrete iteration order for the sets of raw strings the example
oracle produces. -/
def exIterS : Finset String → List String := fun s =>
  if s = {"(c)"} then ["(c)"] else []

/-- A concrete iteration order for the sets of landmarks arising in the
examples. -/
def exIterL : Finset Landmark → List Landmark := fun s =>
  if s = {lmA, lmB} then [lmA, lmB]
  else if s = {lmA} then [lmA]
  else []

/-- Two hypotheses, the real goal at index 1; the decoy shares landmark
`lmA` with the real goal. -/
def exEL : ExtractLandmarks :=
  { goals := ["(g0)", "(g1)"]
    realGoalIndex := 1
    landmarks := [{lmA}, {lmA, lmB}]
    optimal_plans := [4, 6] }

/-- Two hypotheses with disjoint landmark sets and the real goal at index 0:
every intersection with the real goal's landmarks is empty. -/
def l4 : ExtractLandmarks :=
  { goals := ["(g0)", "(g1)"]
    realGoalIndex := 0
    landmarks := [{lmA}, {lmB}]
    optimal_plans := [4, 6] }

namespace ApproachTester

theorem optc_spec {W : Type} (planLen : Landmark → W → Nat)
    (l : ExtractLandmarks) (goal : Nat) (t : Task W) :
    optc planLen l goal t = (planLen (l.getGoal goal) t.world, t) := by
  cases t; rfl

theorem truthfulStep_foldl {W : Type} (planLen : Landmark → W → Nat)
    (l : ExtractLandmarks) (tcd : Int) (idxs : List Nat) (b : Bool)
    (t : Task W) :
    idxs.foldl (truthfulStep planLen l tcd) (b, t) =
      (b || idxs.any (fun i => !(decide (i = l.realGoalIndex)) &&
          decide (tcd < costDiff planLen l i t.world)), t) := by
  induction idxs generalizing b with
  | nil => simp
  | cons i rest ih =>
    simp only [List.foldl_cons, List.any_cons]
    by_cases hi : i = l.realGoalIndex
    · rw [show truthfulStep planLen l tcd (b, t) i = (b, t) from if_pos hi]
      rw [ih]
      simp [hi]
    · have hstep : truthfulStep planLen l tcd (b, t) i =
          (b || decide (tcd < costDiff planLen l i t.world), t) := by
        unfold truthfulStep
        rw [if_neg hi, optc_spec]
        rfl
      rw [hstep, ih]
      simp [hi, Bool.or_assoc]

theorem deceptive_stats_spec {W : Type} (planLen : Landmark → W → Nat)
    (l : ExtractLandmarks) (t : Task W) :
    deceptive_stats planLen l t =
      (((List.range l.goals.length).any
          (fun i => !(decide (i = l.realGoalIndex)) &&
            decide (costDiff planLen l l.realGoalIndex t.world <
              costDiff planLen l i t.world)),
        (l.optimal_plans.getD l.realGoalIndex 0 : Int) -
          (planLen l.getRealGoal t.world : Int)), t) := by
  unfold deceptive_stats
  simp only [optc_spec]
  simp only [truthfulStep_foldl]
  simp [costDiff, ExtractLandmarks.getRealGoal]

theorem calc_fold_aux (arr : List (Bool × Int)) (t : Nat) (lv : Int) :
    arr.foldl calcStep (t, lv) =
      (t + arr.countP (fun s => s.1),
        (((arr.filter (fun s => !s.1)).getLast?).map Prod.snd).getD lv) := by
  induction arr generalizing t lv with
  | nil => simp
  | cons a rest ih =>
    rw [List.foldl_cons]
    cases ha : a.1 with
    | true =>
      rw [show calcStep (t, lv) a = (t + 1, lv) from by simp [calcStep, ha]]
      rw [ih]
      rw [List.countP_cons_of_pos _ _ (by simp [ha])]
      rw [List.filter_cons_of_neg (by simp [ha])]
      simp only [Prod.mk.injEq]
      refine ⟨by omega, by simp⟩
    | false =>
      rw [show calcStep (t, lv) a = (t, a.2) from by simp [calcStep, ha]]
      rw [ih]
      rw [List.countP_cons_of_neg _ _ (by simp [ha])]
      rw [List.filter_cons_of_pos (by simp [ha])]
      cases hfl : rest.filter (fun s => !s.1) with
      | nil => simp
      | cons b bl =>
        obtain ⟨x, hx⟩ := Option.isSome_iff_exists.mp
          (List.getLast?_isSome.mpr (by simp : (b :: bl) ≠ []))
        simp [List.getLast?_cons_cons, hx]

end ApproachTester

theorem coverage_score_mono_all (oracle : Finset String → Finset String)
    (iterS : Finset String → List String) :
    ∀ g : Nat,
      (∀ f L v, f ≤ g → coverage_score oracle iterS f L = some v →
        coverage_score oracle iterS g L = some v) ∧
      (∀ f ls v, f ≤ g → coverage_score_list oracle iterS f ls = some v →
        coverage_score_list oracle iterS g ls = some v) := by
  intro g
  induction g with
  | zero =>
    constructor
    · intro f L v hf h
      have hf0 : f = 0 := Nat.le_zero.mp hf
      subst hf0
      simp [coverage_score] at h
    · intro f ls v hf h
      have hf0 : f = 0 := Nat.le_zero.mp hf
      subst hf0
      exact h
  | succ g ih =>
    have hscore : ∀ f L v, f ≤ g + 1 → coverage_score oracle iterS f L = some v →
        coverage_score oracle iterS (g + 1) L = some v := by
      intro f L v hf h
      cases f with
      | zero => simp [coverage_score] at h
      | succ f' =>
        simp only [coverage_score] at h ⊢
        obtain ⟨t, ht, hv⟩ := Option.map_eq_some'.mp h
        rw [ih.2 f' _ t (by omega) ht]
        simp [hv]
    refine ⟨hscore, ?_⟩
    intro f ls v hf h
    induction ls generalizing v with
    | nil =>
      simp only [coverage_score_list] at h ⊢
      exact h
    | cons lm rest ihl =>
      simp only [coverage_score_list] at h ⊢
      obtain ⟨v1, hv1, hrest⟩ := Option.bind_eq_some.mp h
      obtain ⟨t2, ht2, hv⟩ := Option.map_eq_some'.mp hrest
      rw [hscore f lm v1 hf hv1]
      simp only [Option.some_bind]
      rw [ihl t2 ht2]
      simp [hv]

theorem coverage_score_mono {oracle : Finset String → Finset String}
    {iterS : Finset String → List String}
    {f g : Nat} {L : Landmark} {v : Nat} (hf : f ≤ g)
    (h : coverage_score oracle iterS f L = some v) :
    coverage_score oracle iterS g L = some v :=
  (coverage_score_mono_all oracle iterS g).1 f L v hf h

theorem coverage_score_list_mono {oracle : Finset String → Finset String}
    {iterS : Finset String → List String}
    {f g : Nat} {ls : List Landmark} {v : Nat} (hf : f ≤ g)
    (h : coverage_score_list oracle iterS f ls = some v) :
    coverage_score_list oracle iterS g ls = some v :=
  (coverage_score_mono_all oracle iterS g).2 f ls v hf h

theorem coverage_score_unique {oracle : Finset String → Finset String}
    {iterS : Finset String → List String}
    {f g : Nat} {L : Landmark} {v w : Nat}
    (hv : coverage_score oracle iterS f L = some v)
    (hw : coverage_score oracle iterS g L = some w) : v = w := by
  rcases le_total f g with hfg | hfg
  · have := coverage_score_mono hfg hv
    rw [this] at hw
    exact Option.some.inj hw
  · have := coverage_score_mono hfg hw
    rw [this] at hv
    exact (Option.some.inj hv).symm

namespace NewScoringApproach

theorem memoHit_some {m : Memo} {L : Landmark} {s : Nat}
    (h : memoHit m L = some s) : mlookup m L = some s ∧ s ≠ 0 := by
  unfold memoHit at h
  obtain ⟨a, ha, hif⟩ := Option.bind_eq_some.mp h
  by_cases hz : a = 0
  · rw [if_pos hz] at hif; simp at hif
  · rw [if_neg hz] at hif
    obtain rfl := Option.some.inj hif
    exact ⟨ha, hz⟩

theorem memoHit_none {m : Memo} {L : Landmark} (h : memoHit m L = none) :
    mlookup m L = none ∨ mlookup m L = some 0 := by
  unfold memoHit at h
  cases hl : mlookup m L with
  | none => exact Or.inl rfl
  | some s0 =>
    rw [hl] at h
    simp only [Option.some_bind] at h
    by_cases hs : s0 = 0
    · subst hs; exact Or.inr rfl
    · rw [if_neg hs] at h; simp at h

theorem memoHit_of_lookup {m : Memo} {L : Landmark} {v : Nat}
    (hl : mlookup m L = some v) (hv : v ≠ 0) : memoHit m L = some v := by
  unfold memoHit
  rw [hl]
  simp only [Option.some_bind]
  rw [if_neg hv]

theorem ordering_score_stores {oracle : Finset String → Finset String}
    {iterS : Finset String → List String}
    {fuel : Nat} {m : Memo} {L : Landmark} {v : Nat} {m' : Memo}
    {tr : List Landmark}
    (h : ordering_score oracle iterS fuel m L = some (v, m', tr)) :
    mlookup m' L = some v ∧ v ≠ 0 := by
  cases fuel with
  | zero => simp [ordering_score] at h
  | succ f =>
    rw [ordering_score] at h
    cases hh : memoHit m L with
    | some s =>
      rw [hh] at h
      obtain ⟨h1, h2, h3⟩ : s = v ∧ m = m' ∧ ([] : List Landmark) = tr := by
        have := Option.some.inj h
        exact ⟨congrArg Prod.fst this, congrArg (Prod.fst ∘ Prod.snd) this,
          congrArg (Prod.snd ∘ Prod.snd) this⟩
      subst h1; subst h2
      exact memoHit_some hh
    | none =>
      rw [hh] at h
      simp only [] at h
      obtain ⟨r, hr, heq⟩ := Option.map_eq_some'.mp h
      obtain ⟨h1, h2, h3⟩ : r.1 + 1 = v ∧ (L, r.1 + 1) :: r.2.1 = m' ∧
          L :: r.2.2 = tr := by
        have := heq
        exact ⟨congrArg Prod.fst this, congrArg (Prod.fst ∘ Prod.snd) this,
          congrArg (Prod.snd ∘ Prod.snd) this⟩
      subst h1; subst h2
      constructor
      · simp [mlookup]
      · omega

theorem ordering_score_persist_all (oracle : Finset String → Finset String)
    (iterS : Finset String → List String) :
    ∀ fuel : Nat,
      (∀ m L v m' tr, ordering_score oracle iterS fuel m L = some (v, m', tr) →
        ∀ x w, w ≠ 0 → mlookup m x = some w → mlookup m' x = some w) ∧
      (∀ ls m v m' tr, ordering_score_list oracle iterS fuel m ls = some (v, m', tr) →
        ∀ x w, w ≠ 0 → mlookup m x = some w → mlookup m' x = some w) := by
  intro fuel
  induction fuel with
  | zero =>
    constructor
    · intro m L v m' tr h
      simp [ordering_score] at h
    · intro ls m v m' tr h x w hw hx
      cases ls with
      | nil =>
        simp only [ordering_score_list] at h
        have hm : m = m' := congrArg (Prod.fst ∘ Prod.snd) (Option.some.inj h)
        rw [← hm]; exact hx
      | cons lm rest =>
        simp only [ordering_score_list] at h
        simp [ordering_score] at h
  | succ f ih =>
    have hscore : ∀ m L v m' tr,
        ordering_score oracle iterS (f + 1) m L = some (v, m', tr) →
        ∀ x w, w ≠ 0 → mlookup m x = some w → mlookup m' x = some w := by
      intro m L v m' tr h x w hw hx
      rw [ordering_score] at h
      cases hh : memoHit m L with
      | some s =>
        rw [hh] at h
        have hm : m = m' := congrArg (Prod.fst ∘ Prod.snd) (Option.some.inj h)
        rw [← hm]; exact hx
      | none =>
        rw [hh] at h
        obtain ⟨r, hr, heq⟩ := Option.map_eq_some'.mp h
        have hm' : (L, r.1 + 1) :: r.2.1 = m' :=
          congrArg (Prod.fst ∘ Prod.snd) heq
        have hmid : mlookup r.2.1 x = some w :=
          ih.2 _ m r.1 r.2.1 r.2.2 hr x w hw hx
        rw [← hm']
        by_cases hxL : x = L
        · obtain hn | h0 := memoHit_none hh
          · rw [hxL] at hx; rw [hx] at hn; exact absurd hn (by simp)
          · rw [hxL] at hx; rw [hx] at h0
            exact absurd (Option.some.inj h0) hw
        · simp only [mlookup, if_neg hxL]
          exact hmid
    refine ⟨hscore, ?_⟩
    intro ls
    induction ls with
    | nil =>
      intro m v m' tr h x w hw hx
      simp only [ordering_score_list] at h
      have hm : m = m' := congrArg (Prod.fst ∘ Prod.snd) (Option.some.inj h)
      rw [← hm]; exact hx
    | cons lm rest ihl =>
      intro m v m' tr h x w hw hx
      simp only [ordering_score_list] at h
      obtain ⟨r, hr, hrest⟩ := Option.bind_eq_some.mp h
      obtain ⟨r2, hr2, heq⟩ := Option.map_eq_some'.mp hrest
      have hm' : r2.2.1 = m' := congrArg (Prod.fst ∘ Prod.snd) heq
      have h1 : mlookup r.2.1 x = some w :=
        hscore m lm r.1 r.2.1 r.2.2 hr x w hw hx
      have h2 : mlookup r2.2.1 x = some w :=
        ihl r.2.1 r2.1 r2.2.1 r2.2.2 hr2 x w hw h1
      rw [← hm']; exact h2

theorem ordering_score_sound_all (oracle : Finset String → Finset String)
    (iterS : Finset String → List String) :
    ∀ fuel : Nat,
      (∀ m L v m' tr, SoundMemo oracle iterS m →
        ordering_score oracle iterS fuel m L = some (v, m', tr) →
        SoundMemo oracle iterS m' ∧ ∃ g, coverage_score oracle iterS g L = some v) ∧
      (∀ ls m v m' tr, SoundMemo oracle iterS m →
        ordering_score_list oracle iterS fuel m ls = some (v, m', tr) →
        SoundMemo oracle iterS m' ∧ ∃ g, coverage_score_list oracle iterS g ls = some v) := by
  intro fuel
  induction fuel with
  | zero =>
    constructor
    · intro m L v m' tr _ h
      simp [ordering_score] at h
    · intro ls m v m' tr hsound h
      cases ls with
      | nil =>
        simp only [ordering_score_list] at h
        have h0 := Option.some.inj h
        have hv : 0 = v := congrArg Prod.fst h0
        have hm : m = m' := congrArg (Prod.fst ∘ Prod.snd) h0
        subst hm
        refine ⟨hsound, ⟨0, ?_⟩⟩
        rw [← hv]
        simp [coverage_score_list]
      | cons lm rest =>
        simp only [ordering_score_list] at h
        simp [ordering_score] at h
  | succ f ih =>
    have hscore : ∀ m L v m' tr, SoundMemo oracle iterS m →
        ordering_score oracle iterS (f + 1) m L = some (v, m', tr) →
        SoundMemo oracle iterS m' ∧ ∃ g, coverage_score oracle iterS g L = some v := by
      intro m L v m' tr hsound h
      rw [ordering_score] at h
      cases hh : memoHit m L with
      | some s =>
        rw [hh] at h
        obtain ⟨hlk, _⟩ := memoHit_some hh
        have h0 := Option.some.inj h
        have hv : s = v := congrArg Prod.fst h0
        have hm : m = m' := congrArg (Prod.fst ∘ Prod.snd) h0
        subst hm
        refine ⟨hsound, ?_⟩
        rw [← hv]
        exact hsound L s hlk
      | none =>
        rw [hh] at h
        obtain ⟨r, hr, heq⟩ := Option.map_eq_some'.mp h
        obtain ⟨hrs, g, hg⟩ := ih.2 _ m r.1 r.2.1 r.2.2 hsound hr
        have hv : r.1 + 1 = v := congrArg Prod.fst heq
        have hm : (L, r.1 + 1) :: r.2.1 = m' :=
          congrArg (Prod.fst ∘ Prod.snd) heq
        have hcov : coverage_score oracle iterS (g + 1) L = some (r.1 + 1) := by
          simp only [coverage_score]
          rw [hg]
          rfl
        constructor
        · rw [← hm]
          intro x vx hx
          by_cases hxL : x = L
          · subst hxL
            simp only [mlookup, if_pos rfl] at hx
            obtain rfl := Option.some.inj hx
            exact ⟨g + 1, hcov⟩
          · simp only [mlookup, if_neg hxL] at hx
            exact hrs x vx hx
        · refine ⟨g + 1, ?_⟩
          rw [hcov, hv]
    refine ⟨hscore, ?_⟩
    intro ls
    induction ls with
    | nil =>
      intro m v m' tr hsound h
      simp only [ordering_score_list] at h
      have h0 := Option.some.inj h
      have hv : 0 = v := congrArg Prod.fst h0
      have hm : m = m' := congrArg (Prod.fst ∘ Prod.snd) h0
      subst hm
      refine ⟨hsound, ⟨0, ?_⟩⟩
      rw [← hv]
      simp [coverage_score_list]
    | cons lm rest ihl =>
      intro m v m' tr hsound h
      simp only [ordering_score_list] at h
      obtain ⟨r, hr, hrest⟩ := Option.bind_eq_some.mp h
      obtain ⟨r2, hr2, heq⟩ := Option.map_eq_some'.mp hrest
      obtain ⟨hs1, g1, hg1⟩ := hscore m lm r.1 r.2.1 r.2.2 hsound hr
      obtain ⟨hs2, g2, hg2⟩ := ihl r.2.1 r2.1 r2.2.1 r2.2.2 hs1 hr2
      have hv : r.1 + r2.1 = v := congrArg Prod.fst heq
      have hm : r2.2.1 = m' := congrArg (Prod.fst ∘ Prod.snd) heq
      refine ⟨by rw [← hm]; exact hs2, ⟨max g1 g2, ?_⟩⟩
      have h1 : coverage_score oracle iterS (max g1 g2) lm = some r.1 :=
        coverage_score_mono (le_max_left _ _) hg1
      have h2 : coverage_score_list oracle iterS (max g1 g2) rest = some r2.1 :=
        coverage_score_list_mono (le_max_right _ _) hg2
      simp only [coverage_score_list]
      rw [h1]
      simp only [Option.some_bind]
      rw [h2]
      simp [hv]

theorem computeKeys_spec (oracle : Finset String → Finset String)
    (iterS : Finset String → List String)
    (fuel : Nat) :
    ∀ ls m pairs m' tr, SoundMemo oracle iterS m →
      computeKeys oracle iterS fuel ls m = some (pairs, m', tr) →
      pairs.map Prod.fst = ls ∧ SoundMemo oracle iterS m' ∧
      (∀ x w, w ≠ 0 → mlookup m x = some w → mlookup m' x = some w) ∧
      (∀ p ∈ pairs, mlookup m' p.1 = some p.2 ∧ p.2 ≠ 0 ∧
        ∃ g, coverage_score oracle iterS g p.1 = some p.2) := by
  intro ls
  induction ls with
  | nil =>
    intro m pairs m' tr hsound h
    simp only [computeKeys] at h
    have h0 := Option.some.inj h
    have hp : ([] : List (Landmark × Nat)) = pairs := congrArg Prod.fst h0
    have hm : m = m' := congrArg (Prod.fst ∘ Prod.snd) h0
    subst hm
    refine ⟨by rw [← hp]; rfl, hsound, fun x w _ hx => hx, ?_⟩
    intro p hp2
    rw [← hp] at hp2
    simp at hp2
  | cons lm rest ih =>
    intro m pairs m' tr hsound h
    simp only [computeKeys] at h
    obtain ⟨r, hr, hrest⟩ := Option.bind_eq_some.mp h
    obtain ⟨r2, hr2, heq⟩ := Option.map_eq_some'.mp hrest
    have hp : (lm, r.1) :: r2.1 = pairs := congrArg Prod.fst heq
    have hm : r2.2.1 = m' := congrArg (Prod.fst ∘ Prod.snd) heq
    obtain ⟨hs1, g1, hg1⟩ :=
      (ordering_score_sound_all oracle iterS fuel).1 m lm r.1 r.2.1 r.2.2 hsound hr
    obtain ⟨hst, hnz⟩ := ordering_score_stores hr
    obtain ⟨hmap, hs2, hpers2, hmem⟩ := ih r.2.1 r2.1 r2.2.1 r2.2.2 hs1 hr2
    have hpers1 : ∀ x w, w ≠ 0 → mlookup m x = some w →
        mlookup r.2.1 x = some w := by
      intro x w hw hx
      exact (ordering_score_persist_all oracle iterS fuel).1 m lm r.1 r.2.1 r.2.2 hr
        x w hw hx
    subst hm
    refine ⟨?_, hs2, ?_, ?_⟩
    · rw [← hp]
      simp [hmap]
    · intro x w hw hx
      exact hpers2 x w hw (hpers1 x w hw hx)
    · intro p hpmem
      rw [← hp] at hpmem
      rcases List.mem_cons.mp hpmem with hphead | hptl
      · subst hphead
        exact ⟨hpers2 lm r.1 hnz hst, hnz, ⟨g1, hg1⟩⟩
      · exact hmem p hptl

unseal findAtoms ordering_score ordering_score_list coverage_score coverage_score_list List.mergeSort List.merge

/-- C9: `optc` restores the task goal it mutates: for every goal index and
every task state, `optc` returns the length of the plan computed by optimal
search from the task's state to the queried hypothesis's parsed goal, and
the task object after the call equals the task before it (its goals field
was saved and written back, its world untouched), so repeated cost queries
do not leak one query's goal into the next. -/
theorem claim9_optc_restores {W : Type} (planLen : Landmark → W → Nat)
    (l : ExtractLandmarks) (goal : Nat) (state_task : Task W) :
    ApproachTester.optc planLen l goal state_task =
      (planLen (l.getGoal goal) state_task.world, state_task) :=
  ApproachTester.optc_spec planLen l goal state_task

/-- C2: `deceptive_stats` returns `truthful = true` iff some competitor
index `i` distinct from the real-goal index satisfies
`costDiff(real, state) < costDiff(i, state)`; its second component is the
real goal's precomputed optimal plan length minus the state-to-real-goal
plan length; and the task is unchanged by the call. -/
theorem claim2_truthful_iff {W : Type} (planLen : Landmark → W → Nat)
    (l : ExtractLandmarks) (state_task : Task W) :
    ((ApproachTester.deceptive_stats planLen l state_task).1.1 = true ↔
      ∃ i, i < l.goals.length ∧ i ≠ l.realGoalIndex ∧
        ApproachTester.costDiff planLen l l.realGoalIndex state_task.world <
          ApproachTester.costDiff planLen l i state_task.world) ∧
    (ApproachTester.deceptive_stats planLen l state_task).1.2 =
      (l.optimal_plans.getD l.realGoalIndex 0 : Int) -
        (planLen l.getRealGoal state_task.world : Int) ∧
    (ApproachTester.deceptive_stats planLen l state_task).2 = state_task := by
  rw [ApproachTester.deceptive_stats_spec]
  refine ⟨?_, rfl, rfl⟩
  simp only [List.any_eq_true, List.mem_range]
  constructor
  · rintro ⟨i, hi, hp⟩
    simp only [Bool.and_eq_true, Bool.not_eq_true', decide_eq_false_iff_not,
      decide_eq_true_eq] at hp
    exact ⟨i, hi, hp.1, hp.2⟩
  · rintro ⟨i, hi, hne, hlt⟩
    exact ⟨i, hi, by simp [hne, hlt]⟩

/-- C3: when at least one record is truthful, `calc_deceptive_stats` returns
a density equal to one divided by the number of truthful records, which is
strictly positive (and finite, being a rational); with zero truthful records
the division `1/truths` raises `ZeroDivisionError` (modelled as an error
value), rather than returning infinity or NaN. -/
theorem claim3_density (deception_array : List (Bool × Int)) :
    (0 < deception_array.countP (fun s => s.1) →
      ∃ ext, ApproachTester.calc_deceptive_stats deception_array =
          Except.ok
            (1 / (deception_array.countP (fun s => s.1) : ℚ), ext) ∧
        0 < (1 / (deception_array.countP (fun s => s.1) : ℚ))) ∧
    (deception_array.countP (fun s => s.1) = 0 →
      ApproachTester.calc_deceptive_stats deception_array =
        Except.error "ZeroDivisionError: division by zero") := by
  have hcount : (ApproachTester.calc_fold deception_array).1 =
      deception_array.countP (fun s => s.1) := by
    unfold ApproachTester.calc_fold
    rw [ApproachTester.calc_fold_aux]
    simp
  constructor
  · intro hpos
    refine ⟨(ApproachTester.calc_fold deception_array).2, ?_, ?_⟩
    · simp only [ApproachTester.calc_deceptive_stats]
      rw [hcount, if_neg (Nat.pos_iff_ne_zero.mp hpos)]
    · exact one_div_pos.mpr (by exact_mod_cast hpos)
  · intro hzero
    simp only [ApproachTester.calc_deceptive_stats]
    rw [hcount, if_pos hzero]

/-- C3 witness: a one-record truthful trace yields density `1/1 > 0`; the
empty trace (zero truthful records) raises. -/
theorem claim3_density_witness :
    (∃ ext, ApproachTester.calc_deceptive_stats [(true, (5 : Int))] =
        Except.ok
          (1 / (([(true, (5 : Int))].countP (fun s => s.1) : Nat) : ℚ),
            ext) ∧
      0 < (1 / (([(true, (5 : Int))].countP (fun s => s.1) : Nat) : ℚ))) ∧
    ApproachTester.calc_deceptive_stats ([] : List (Bool × Int)) =
      Except.error "ZeroDivisionError: division by zero" :=
  ⟨(claim3_density [(true, (5 : Int))]).1 (by decide),
    (claim3_density ([] : List (Bool × Int))).2 (by decide)⟩

/-- C6: `calc_deceptive_stats` computes the extent with last-wins semantics:
whenever the trace has at least one non-truthful record, the accumulated
extent equals the plan completion of the last such record; and the concrete
trace with truthful pattern T,F,F,T,F and plan completions 1,2,3,1,4 yields
density `1/2` and extent `4`. -/
theorem claim6_extent_last_wins (deception_array : List (Bool × Int))
    (r : Bool × Int)
    (hlast : (deception_array.filter (fun s => !s.1)).getLast? = some r) :
    (ApproachTester.calc_fold deception_array).2 = r.2 ∧
    ApproachTester.calc_deceptive_stats
        [(true, 1), (false, 2), (false, 3), (true, 1), (false, 4)] =
      Except.ok (1 / 2, 4) := by
  constructor
  · unfold ApproachTester.calc_fold
    rw [ApproachTester.calc_fold_aux]
    simp [hlast]
  · rfl

/-- C6 witness: on the trace from the claim, the last non-truthful record is
`(false, 4)` and the folded extent is `4`. -/
theorem claim6_extent_last_wins_witness :
    (ApproachTester.calc_fold
        [(true, 1), (false, 2), (false, 3), (true, 1), (false, 4)]).2 =
      (false, (4 : Int)).2 ∧
    ApproachTester.calc_deceptive_stats
        [(true, 1), (false, 2), (false, 3), (true, 1), (false, 4)] =
      Except.ok (1 / 2, 4) :=
  claim6_extent_last_wins
    [(true, 1), (false, 2), (false, 3), (true, 1), (false, 4)]
    (false, (4 : Int)) (by decide)

/-- C10: for every non-empty trace in which every record is truthful
(including a single all-truthful record), `calc_deceptive_stats` returns an
extent equal to `0`, the initialisation value of `LDP_path_comp`, even
though no deceptive step occurred. -/
theorem claim10_all_truthful_extent_zero
    (deception_array : List (Bool × Int))
    (hall : ∀ r ∈ deception_array, r.1 = true)
    (hne : deception_array ≠ []) :
    ∃ d, ApproachTester.calc_deceptive_stats deception_array =
      Except.ok (d, 0) := by
  have hfilter : deception_array.filter (fun s => !s.1) = [] := by
    rw [List.filter_eq_nil]
    intro a ha
    simp [hall a ha]
  have hfold := ApproachTester.calc_fold_aux deception_array 0 0
  have hcount : deception_array.countP (fun s => s.1) =
      deception_array.length :=
    List.countP_eq_length.mpr (fun a ha => by simp [hall a ha])
  refine ⟨1 / (deception_array.countP (fun s => s.1) : ℚ), ?_⟩
  simp only [ApproachTester.calc_deceptive_stats, ApproachTester.calc_fold]
  rw [hfold]
  rw [hfilter]
  simp only [List.getLast?_nil, Option.map_none', Option.getD_none,
    Nat.zero_add]
  rw [if_neg (by
    rw [hcount]
    exact Nat.pos_iff_ne_zero.mp (List.length_pos.mpr hne))]

/-- C10 witness: the single all-truthful record trace returns extent `0`. -/
theorem claim10_all_truthful_extent_zero_witness :
    ∃ d, ApproachTester.calc_deceptive_stats [(true, (3 : Int))] =
      Except.ok (d, 0) :=
  claim10_all_truthful_extent_zero [(true, (3 : Int))] (by decide) (by decide)

/-- C4: evaluation at the failing input. The claim says `NearestDecoy` never
selects the real goal's own index, because the real entry is replaced by the
"empty set" before choosing the largest intersection. But the replacement
`landmarkIntersection[realGoalIndex] = {}` stores an empty dict, which under
Python `==` is not equal to any set. With the real goal at index `0` and all
other intersections empty, `max(..., key=len)` returns the dict placeholder
itself and `.index` finds it at position `0`, so the real goal is selected
as its own decoy and the returned sequence visits the real goal twice. -/
theorem claim4_failing_input_eval :
    GoalToRealGoalApproach.landmarkSetIndex l4 = l4.realGoalIndex ∧
    l4.realGoalIndex = 0 ∧
    GoalToRealGoalApproach.generate l4 =
      [parse_goal "(g0)", parse_goal "(g0)"] := by
  refine ⟨by decide, by decide, by decide⟩

/-- C5: every strategy's waypoint sequence is non-empty and ends with the
real goal's parsed formula: `Direct` returns `[realGoal]`, `NearestDecoy`
`[decoy, realGoal]`, `OrderedByCoverage` and `MemoizedCoverage` append the
real goal after the sorted landmarks (for `MemoizedCoverage`, whenever the
recursive scoring terminates and `generate` returns a sequence). -/
theorem claim5_last_element_real_goal
    (oracle : Finset String → Finset String)
    (iterS : Finset String → List String)
    (iterL : Finset Landmark → List Landmark)
    (l : ExtractLandmarks) (fuel : Nat)
    (out : List Landmark) (m : NewScoringApproach.Memo) (tr : List Landmark)
    (hgen : NewScoringApproach.generate oracle iterS iterL l fuel =
      some (out, m, tr)) :
    (BaselineApproach.generate l).getLast? = some l.getRealGoal ∧
    (GoalToRealGoalApproach.generate l).getLast? = some l.getRealGoal ∧
    ((OldScoringApproach.generate oracle iterL l).1).getLast? =
      some l.getRealGoal ∧
    out.getLast? = some l.getRealGoal := by
  refine ⟨rfl, ?_, ?_, ?_⟩
  · simp [GoalToRealGoalApproach.generate]
  · simp only [OldScoringApproach.generate]
    exact List.getLast?_concat _
  · simp only [NewScoringApproach.generate] at hgen
    obtain ⟨r, hr, heq⟩ := Option.map_eq_some'.mp hgen
    have hout : (r.1.mergeSort (fun a b => a.2 ≤ b.2)).map (·.1) ++
        [l.getRealGoal] = out := congrArg Prod.fst heq
    rw [← hout]
    exact List.getLast?_concat _

/-- C5 witness: at the concrete example instance all four sequences end with
the real goal's formula. -/
theorem claim5_last_element_real_goal_witness :
    (BaselineApproach.generate exEL).getLast? = some exEL.getRealGoal ∧
    (GoalToRealGoalApproach.generate exEL).getLast? =
      some exEL.getRealGoal ∧
    ((OldScoringApproach.generate exOracle exIterL exEL).1).getLast? =
      some exEL.getRealGoal ∧
    ([lmA, lmB, parse_goal "(g1)"] : List Landmark).getLast? =
      some exEL.getRealGoal :=
  claim5_last_element_real_goal exOracle exIterS exIterL exEL 10
    [lmA, lmB, parse_goal "(g1)"] [(lmB, 2), (lmC, 1), (lmA, 1)]
    [lmA, lmB, lmC] (by decide)

/-- C8: within one `MemoizedCoverage` invocation, scoring the same landmark
a second time returns the identical value and leaves the memo, the goals
trace and hence the oracle call count unchanged: after a call that returned
`(v, m', tr)`, calling `ordering_score` again on the same landmark with the
memo `m'` hits the memo and returns `(v, m', [])` — the same score, the
same memo, and an empty trace, i.e. no further `get_landmarks` invocation. -/
theorem claim8_memo_hit (oracle : Finset String → Finset String)
    (iterS : Finset String → List String) (fuel : Nat)
    (m : NewScoringApproach.Memo) (L : Landmark) (v : Nat)
    (m' : NewScoringApproach.Memo) (tr : List Landmark)
    (h : NewScoringApproach.ordering_score oracle iterS fuel m L =
      some (v, m', tr)) :
    NewScoringApproach.ordering_score oracle iterS fuel m' L =
      some (v, m', []) := by
  obtain ⟨hlk, hnz⟩ := NewScoringApproach.ordering_score_stores h
  cases fuel with
  | zero => simp [NewScoringApproach.ordering_score] at h
  | succ f =>
    rw [NewScoringApproach.ordering_score]
    rw [NewScoringApproach.memoHit_of_lookup hlk hnz]

/-- C8 witness: the first scoring of `lmB` performs two oracle calls and
stores the score `2`; the second scoring returns the same `2` with the memo
unchanged and no oracle call. -/
theorem claim8_memo_hit_witness :
    NewScoringApproach.ordering_score exOracle exIterS 10
        [(lmB, 2), (lmC, 1)] lmB =
      some (2, [(lmB, 2), (lmC, 1)], []) :=
  claim8_memo_hit exOracle exIterS 10 [] lmB 2 [(lmB, 2), (lmC, 1)]
    [lmB, lmC] (by decide)

/-- C7 counterexample: the claim that every strategy's `generate` leaves the
shared extraction state — in particular `initialTask.goals` — unchanged is
false. `MemoizedCoverage` writes each scored landmark into
`initialTask.goals` before calling `get_landmarks` and never restores the
field: starting from goals `∅`, after `generate` the field holds `lmC`, the
goal of the last landmark-extraction query, and `lmC ≠ ∅`. -/
theorem claim7_counterexample :
    NewScoringApproach.run exOracle exIterS exIterL exEL 10 ∅ =
      some ([lmA, lmB, parse_goal "(g1)"], lmC) ∧ lmC ≠ (∅ : Landmark) := by
  refine ⟨by decide, by decide⟩

/-- C7 amended: every strategy's `generate` is deterministic given its
inputs: its output sequence does not depend on the value the mutable
`initialTask.goals` field holds when the call starts (each `get_landmarks`
query overwrites the field before reading), so two consecutive invocations
on the same inputs — the second starting in whatever state the first left —
return the same sequence. `Direct` and `NearestDecoy` do not touch the task
at all; the scoring strategies do overwrite the goals field (see the
counterexample). -/
theorem claim7_deterministic (oracle : Finset String → Finset String)
    (iterS : Finset String → List String)
    (iterL : Finset Landmark → List Landmark)
    (l : ExtractLandmarks) (fuel : Nat) (g₁ g₂ : Landmark) :
    (NewScoringApproach.run oracle iterS iterL l fuel g₁).map Prod.fst =
      (NewScoringApproach.run oracle iterS iterL l fuel g₂).map Prod.fst ∧
    (OldScoringApproach.run oracle iterL l g₁).1 =
      (OldScoringApproach.run oracle iterL l g₂).1 ∧
    BaselineApproach.generate l = BaselineApproach.generate l ∧
    GoalToRealGoalApproach.generate l = GoalToRealGoalApproach.generate l := by
  refine ⟨?_, rfl, rfl, rfl⟩
  unfold NewScoringApproach.run
  cases NewScoringApproach.generate oracle iterS iterL l fuel <;> rfl

/-- C1 counterexample: at the example instance `MemoizedCoverage` returns
`[lmA, lmB, realGoal]` while the recursive coverage scores are
`score lmA = 1 < 2 = score lmB`: the strictly higher-scored landmark
appears later, not earlier, so the returned sequence is not the union
sorted with higher scores first (which would be `[lmB, lmA, realGoal]`). -/
theorem claim1_counterexample :
    (NewScoringApproach.generate exOracle exIterS exIterL exEL 10).map
        Prod.fst = some [lmA, lmB, parse_goal "(g1)"] ∧
    coverage_score exOracle exIterS 10 lmA = some 1 ∧
    coverage_score exOracle exIterS 10 lmB = some 2 ∧
    [lmA, lmB, parse_goal "(g1)"] ≠ [lmB, lmA, parse_goal "(g1)"] := by
  refine ⟨by decide, by decide, by decide, by decide⟩

/-- C1 amended: for every hypothesis list with a distinguished real index
(and every oracle and iteration order), whenever `MemoizedCoverage`
(`NewScoringApproach.generate`) returns a sequence, that sequence is the
union of the best decoy's landmark set and the real goal's landmark set —
a permutation of the union's iteration list, hence (for any faithful
iteration order) carrying exactly the union's elements — sorted so that a
landmark with a strictly LOWER recursive coverage score appears earlier
(Python `sorted` is ascending), with the real goal's formula appended as
the final element. Each sort key is the landmark's recursive coverage score
`score(L) = 1 + Σ score(parse(L'))` over `get_landmarks(L) \ L`. -/
theorem claim1_sorted_ascending (oracle : Finset String → Finset String)
    (iterS : Finset String → List String)
    (iterL : Finset Landmark → List Landmark)
    (l : ExtractLandmarks) (fuel : Nat)
    (out : List Landmark) (m : NewScoringApproach.Memo) (tr : List Landmark)
    (hgen : NewScoringApproach.generate oracle iterS iterL l fuel =
      some (out, m, tr)) :
    ∃ (front : List Landmark) (key : Landmark → Nat),
      out = front ++ [l.getRealGoal] ∧
      front.Perm (iterL (NewScoringApproach.combinedLandmarks l)) ∧
      ((iterL (NewScoringApproach.combinedLandmarks l)).toFinset =
          NewScoringApproach.combinedLandmarks l →
        front.toFinset = NewScoringApproach.combinedLandmarks l) ∧
      (∀ L ∈ front, ∃ g, coverage_score oracle iterS g L = some (key L)) ∧
      front.Pairwise (fun a b => key a ≤ key b) := by
  simp only [NewScoringApproach.generate] at hgen
  obtain ⟨r, hr, heq⟩ := Option.map_eq_some'.mp hgen
  have hout : (r.1.mergeSort (fun a b => a.2 ≤ b.2)).map (·.1) ++
      [l.getRealGoal] = out := congrArg Prod.fst heq
  have hsound0 : SoundMemo oracle iterS [] := by
    intro L v h
    simp [NewScoringApproach.mlookup] at h
  obtain ⟨hmap, hsound, hpers, hmem⟩ :=
    NewScoringApproach.computeKeys_spec oracle iterS fuel
      (iterL (NewScoringApproach.combinedLandmarks l)) [] r.1 r.2.1 r.2.2
      hsound0 hr
  have hperm : ((r.1.mergeSort (fun a b => a.2 ≤ b.2)).map (·.1)).Perm
      (iterL (NewScoringApproach.combinedLandmarks l)) := by
    have hp := (List.mergeSort_perm r.1 (fun a b => a.2 ≤ b.2)).map Prod.fst
    rw [hmap] at hp
    exact hp
  refine ⟨(r.1.mergeSort (fun a b => a.2 ≤ b.2)).map (·.1),
    fun L => (NewScoringApproach.mlookup r.2.1 L).getD 0,
    hout.symm, hperm, ?_, ?_, ?_⟩
  · intro hiter
    rw [List.toFinset_eq_of_perm _ _ hperm, hiter]
  · intro L hL
    obtain ⟨p, hpmem, hpfst⟩ := List.mem_map.mp hL
    have hpr : p ∈ r.1 := List.mem_mergeSort.mp hpmem
    obtain ⟨hlk, hnz, g, hg⟩ := hmem p hpr
    refine ⟨g, ?_⟩
    rw [← hpfst]
    show coverage_score oracle iterS g p.1 =
      some ((NewScoringApproach.mlookup r.2.1 p.1).getD 0)
    rw [hlk]
    simpa using hg
  · have hsorted : (r.1.mergeSort (fun a b => a.2 ≤ b.2)).Pairwise
        (fun a b : Landmark × Nat => (decide (a.2 ≤ b.2)) = true) := by
      apply List.sorted_mergeSort
      · intro a b c h1 h2
        simp only [decide_eq_true_eq] at h1 h2 ⊢
        omega
      · intro a b
        simp only [Bool.or_eq_true, decide_eq_true_eq]
        omega
    rw [List.pairwise_map]
    refine List.Pairwise.imp_of_mem ?_ hsorted
    intro p q hp hq hle
    have hkp := (hmem p (List.mem_mergeSort.mp hp)).1
    have hkq := (hmem q (List.mem_mergeSort.mp hq)).1
    simp only [decide_eq_true_eq] at hle
    show (NewScoringApproach.mlookup r.2.1 p.1).getD 0 ≤
      (NewScoringApproach.mlookup r.2.1 q.1).getD 0
    rw [hkp, hkq]
    simpa using hle

/-- C1 witness: the amended claim instantiated at the example: the sequence
`[lmA, lmB, realGoal]` is ascending in the coverage scores 1, 2. -/
theorem claim1_sorted_ascending_witness :
    ∃ (front : List Landmark) (key : Landmark → Nat),
      ([lmA, lmB, parse_goal "(g1)"] : List Landmark) =
        front ++ [exEL.getRealGoal] ∧
      front.Perm (exIterL (NewScoringApproach.combinedLandmarks exEL)) ∧
      ((exIterL (NewScoringApproach.combinedLandmarks exEL)).toFinset =
          NewScoringApproach.combinedLandmarks exEL →
        front.toFinset = NewScoringApproach.combinedLandmarks exEL) ∧
      (∀ L ∈ front, ∃ g,
        coverage_score exOracle exIterS g L = some (key L)) ∧
      front.Pairwise (fun a b => key a ≤ key b) :=
  claim1_sorted_ascending exOracle exIterS exIterL exEL 10
    [lmA, lmB, parse_goal "(g1)"] [(lmB, 2), (lmC, 1), (lmA, 1)]
    [lmA, lmB, lmC] (by decide)
